import Mathlib

set_option maxHeartbeats 1000000

/-!
Shallow embedding of the static-site generator in `src/generator/src/main.rs`.

Filesystem paths are modelled as lists of path components (`List String`);
a path's file name is its last component.  The external capabilities the
generator calls into (the markdown parser `markdown::to_mdast` /
`markdown::to_html_with_options`, the YAML decoder `serde_yaml::from_str`,
file reading `fs::read_to_string`) are abstracted as function parameters
collected in `Caps`; the tera templating engine, which the spec declares an
opaque named-slot substitution capability, is modelled from the spec as
`renderTemplate`.  A Rust `panic!`/`.unwrap()` failure is modelled as `none`.
-/

/-- Finds the rightmost `'.'` in a list of characters, returning the parts
before and after it; `none` when there is no dot.  Helper for the Rust
`Path::file_stem` / `Path::extension` semantics on a file name. -/
def lastDotSplit : List Char → Option (List Char × List Char)
  | [] => none
  | c :: rest =>
    match lastDotSplit rest with
    | some (pre, post) => some (c :: pre, post)
    | none => if c = '.' then some ([], rest) else none

/-- Rust `Path::file_stem` on a single (nonempty, non-`..`) path component:
the portion before the final dot, or the whole name when there is no dot or
the only dot is the leading character. -/
def fileStem (name : String) : String :=
  match lastDotSplit name.data with
  | some (pre, _) => if pre = [] then name else ⟨pre⟩
  | none => name

/-- Rust `Path::extension` on a single (nonempty, non-`..`) path component:
the portion after the final dot, or `none` when there is no dot or the only
dot is the leading character. -/
def extOf (name : String) : Option String :=
  match lastDotSplit name.data with
  | some (pre, post) => if pre = [] then none else some ⟨post⟩
  | none => none

/-- Rust `Path::strip_prefix` over component lists: `stripDir p dir` removes
the leading components `dir` from `p`, failing when `dir` does not lead `p`. -/
def stripDir : List String → List String → Option (List String)
  | p, [] => some p
  | [], _ :: _ => none
  | a :: p, b :: dir => if b = a then stripDir p dir else none

/-- Rust `Path::parent` over component lists: drops the final component;
`none` on the empty path. -/
def parentDir : List String → Option (List String)
  | [] => none
  | l@(_ :: _) => some l.dropLast

/-- The `PageTriple` struct of main.rs: source path, output path, and public
address of a page.  The address is stored as its component list (`uri` in the
source is `Path::new("/").join(irene)`; `uriString` below renders the same
rooted form). -/
structure PageTriple where
  src : List String
  out : List String
  uri : List String
deriving DecidableEq, Repr

/-- Renders an address component list the way `Path::new("/").join(...)`
displays: rooted at `/`, components joined by `/`. -/
def uriString (uri : List String) : String :=
  "/" ++ String.intercalate "/" uri

/-- `PageTriple::new` of main.rs.  Each `.unwrap()` in the source is an
`Option` bind here: `file_stem().unwrap()`, `strip_prefix(src_dir).unwrap()`,
`parent().unwrap()`. -/
def PageTriple.new (src src_dir out_dir : List String) : Option PageTriple := do
  let fname ← src.getLast?
  let stem := fileStem fname
  let rel ← stripDir src src_dir
  let base ← parentDir rel
  let irene := if stem == "index" then base else base ++ [stem]
  some { src := src, out := out_dir ++ irene ++ ["index.html"], uri := irene }

/-- The mdast node shapes `Page::new` distinguishes: the document root, a
YAML frontmatter node carrying its raw text, and every other node kind. -/
inductive Node where
  | root (children : List Node)
  | yaml (value : String)
  | other

/-- The `FrontMatter` struct of main.rs: the two fields `serde_yaml` must
decode from the YAML header. -/
structure FrontMatter where
  title : String
  template : String
deriving DecidableEq, Repr

/-- The `unwrap_or` fallback of `Page::new`: `title = "NO TITLE"`,
`template = "base-1.html"`. -/
def defaultFrontMatter : FrontMatter :=
  { title := "NO TITLE", template := "base-1.html" }

/-- The front-matter extraction chain in `Page::new`:
`children.get(0) → match Yaml → serde_yaml decode → unwrap_or(default)`.
The YAML decoder (`serde_yaml::from_str(..).ok()`) is the abstract
`decode` parameter. -/
def extractFrontMatter (decode : String → Option FrontMatter)
    (children : List Node) : FrontMatter :=
  (((children.get? 0).bind fun node =>
      match node with
      | Node.yaml value => some value
      | _ => none).bind decode).getD defaultFrontMatter

/-- The `Page` struct of main.rs. -/
structure Page where
  title : String
  template : String
  content : String
deriving DecidableEq, Repr

/-- The external capabilities the generator calls into, abstracted as
functions: `fs::read_to_string` (`none` = read failure / invalid UTF-8),
`markdown::to_mdast` (`none` = parse failure), `serde_yaml::from_str(..).ok()`,
and `markdown::to_html_with_options` whose `Err` case carries a message
string, exactly as in the source's `Result<String, String>`. -/
structure Caps where
  readFile : List String → Option String
  toMdast : String → Option Node
  decode : String → Option FrontMatter
  toHtml : String → Except String String

/-- `Page::new` of main.rs: read the source file (`.unwrap()`), parse it to
an mdast tree (`.unwrap()`), require the root node (`panic!` otherwise), then
extract the front matter with defaulting. -/
def Page.new (caps : Caps) (triple : PageTriple) : Option Page := do
  let content ← caps.readFile triple.src
  let ast ← caps.toMdast content
  match ast with
  | Node.root children =>
    let fm := extractFrontMatter caps.decode children
    some { title := fm.title, template := fm.template, content := content }
  | _ => none

/-- A piece of a layout template: literal text, the `title` slot, or the
`content` slot. -/
inductive Chunk where
  | lit (s : String)
  | slotTitle
  | slotContent
deriving DecidableEq, Repr

/-- The text a chunk contributes to the rendered output: slot values are
inserted verbatim. -/
def chunkText (title content : String) : Chunk → String
  | Chunk.lit s => s
  | Chunk.slotTitle => title
  | Chunk.slotContent => content

/-- Modelled from the spec: the external templating capability (tera with
`autoescape_on(vec![])`, i.e. autoescaping disabled).  A layout is a sequence
of literal chunks and named slots `title`/`content`; rendering concatenates
the chunks, substituting the slot values verbatim with no escaping. -/
def renderTemplate (layout : List Chunk) (title content : String) : String :=
  match layout with
  | [] => ""
  | c :: cs => chunkText title content c ++ renderTemplate cs title content

/-- `fn render` of main.rs over a `LayoutSet` (the tera instance, modelled as
an association list from template names to layouts).  The markdown conversion
result is used whether `Ok` or `Err` (the `match { Ok(s) => s, Err(s) => s }`
in the source); the `tera.render(..).unwrap()` is the `Option` here; the
`fs::write` is modelled by returning the `(path, bytes)` pair to write.
Directory creation is I/O and elided.  `contentHtml` is the `content_html`
binding of `fn render`: the markdown conversion result, used whether `Ok`
or `Err`. -/
def contentHtml (caps : Caps) (page : Page) : String :=
  match caps.toHtml page.content with
  | Except.ok s => s
  | Except.error s => s

/-- `fn render`, continued: layout selection and slot population. -/
def render (tera : List (String × List Chunk)) (caps : Caps) (page : Page)
    (triple : PageTriple) : Option (List String × String) :=
  let content_html := contentHtml caps page
  match tera.lookup page.template with
  | some layout => some (triple.out, renderTemplate layout page.title content_html)
  | none => none

/-- One iteration of the `for src in srcs` loop in `main`: build the triple,
build the page, render; `none` when any stage panics. -/
def processSrc (caps : Caps) (tera : List (String × List Chunk))
    (src_dir out_dir : List String) (src : List String) :
    Option (List String × String) := do
  let triple ← PageTriple.new src src_dir out_dir
  let page ← Page.new caps triple
  render tera caps page triple

/-- The `for src in srcs` loop in `main`: processes sources in order,
accumulating the writes performed; the `Bool` is `false` when a panic aborted
the run, in which case the writes of the documents before the failing one
have already been performed and nothing after is processed. -/
def mainLoop (caps : Caps) (tera : List (String × List Chunk))
    (src_dir out_dir : List String) :
    List (List String) → List (List String × String) × Bool
  | [] => ([], true)
  | src :: rest =>
    match processSrc caps tera src_dir out_dir src with
    | none => ([], false)
    | some w =>
      let r := mainLoop caps tera src_dir out_dir rest
      (w :: r.1, r.2)

/-- A directory entry as seen by the scanner: a plain file or a subdirectory
with its named entries.  File contents are irrelevant to `get_all_src` (it
only looks at names and kinds). -/
inductive FsEntry where
  | file
  | dir (entries : List (String × FsEntry))

mutual

/-- Size of an entry (for the scanner loop's termination measure). -/
def esize : FsEntry → Nat
  | FsEntry.file => 1
  | FsEntry.dir es => 1 + lsize es

/-- Size of an entry list. -/
def lsize : List (String × FsEntry) → Nat
  | [] => 0
  | (_, e) :: rest => esize e + lsize rest

end

/-- The subdirectory pass of the scanner loop body: the
`filter(|path| path.is_dir())` over a directory's entries, paired with the
paths the recursion will scan them under. -/
def subdirsOf (path : List String) (entries : List (String × FsEntry)) :
    List (List String × List (String × FsEntry)) :=
  entries.filterMap fun pe =>
    match pe with
    | (n, FsEntry.dir es) => some (path ++ [n], es)
    | (_, FsEntry.file) => none

/-- The `.md`-collection pass of the scanner loop body: files whose
`extension()` is `Some("md")`. -/
def mdsOf (path : List String) (entries : List (String × FsEntry)) :
    List (List String) :=
  entries.filterMap fun pe =>
    match pe with
    | (n, FsEntry.file) => if extOf n = some "md" then some (path ++ [n]) else none
    | (_, FsEntry.dir _) => none

/-- Termination measure of the scanner's directory stack. -/
def stackMeasure : List (List String × List (String × FsEntry)) → Nat
  | [] => 0
  | (_, es) :: rest => 1 + lsize es + stackMeasure rest

theorem stackMeasure_append (a b : List (List String × List (String × FsEntry))) :
    stackMeasure (a ++ b) = stackMeasure a + stackMeasure b := by
  induction a with
  | nil => simp [stackMeasure]
  | cons q rest ih =>
    obtain ⟨p, es⟩ := q
    simp [stackMeasure, ih]
    omega

theorem stackMeasure_subdirsOf (path : List String)
    (entries : List (String × FsEntry)) :
    stackMeasure (subdirsOf path entries) ≤ lsize entries := by
  induction entries with
  | nil => simp [subdirsOf, stackMeasure]
  | cons pe rest ih =>
    obtain ⟨n, e⟩ := pe
    cases e with
    | file =>
      simp only [subdirsOf, List.filterMap_cons] at *
      simp only [lsize, esize]
      omega
    | dir es =>
      simp only [subdirsOf, List.filterMap_cons] at *
      simp only [stackMeasure, lsize, esize]
      omega

/-- The `while let Some(dir) = dirstack.pop()` loop of `get_all_src`: pop a
directory, push its subdirectories, append its `.md` files to the output.
The head of the list is the top of the stack. -/
def get_all_src_loop :
    List (List String × List (String × FsEntry)) → List (List String) →
    List (List String)
  | [], out => out
  | (path, entries) :: rest, out =>
    get_all_src_loop (subdirsOf path entries ++ rest) (out ++ mdsOf path entries)
termination_by stack _ => stackMeasure stack
decreasing_by
  simp only [stackMeasure, stackMeasure_append]
  have := stackMeasure_subdirsOf path entries
  omega

/-- `get_all_src` of main.rs: scan the tree rooted at `root` (whose entries
are `entries`) for `.md` files. -/
def get_all_src (root : List String) (entries : List (String × FsEntry)) :
    List (List String) :=
  get_all_src_loop [(root, entries)] []

/-- Reference predicate for the scanner's contract: `rel` is the relative
path of a file under the entry list whose extension is `md`. -/
def isMdFileUnder : List (String × FsEntry) → List String → Prop
  | _, [] => False
  | es, [n] => (n, FsEntry.file) ∈ es ∧ extOf n = some "md"
  | es, n :: n2 :: ns => ∃ es2, (n, FsEntry.dir es2) ∈ es ∧ isMdFileUnder es2 (n2 :: ns)

/-- Processing of a list of sources when every one succeeds: `some ws` when
each source produces a write, `none` as soon as one panics.  Used to phrase
"the run reached document d with writes ws already performed". -/
def processAll (caps : Caps) (tera : List (String × List Chunk))
    (src_dir out_dir : List String) :
    List (List String) → Option (List (List String × String))
  | [] => some []
  | src :: rest => do
    let w ← processSrc caps tera src_dir out_dir src
    let ws ← processAll caps tera src_dir out_dir rest
    some (w :: ws)

/-- A concrete YAML decoder for instantiating the theorems: decodes the
header text `"good"` to `{title: "Hi", template: "post.html"}` and rejects
everything else. -/
def decodeEx : String → Option FrontMatter :=
  fun s => if s = "good" then some { title := "Hi", template := "post.html" } else none

/-- A concrete layout holding both named slots. -/
def layoutEx : List Chunk :=
  [Chunk.lit "<title>", Chunk.slotTitle, Chunk.lit "</title><body>",
   Chunk.slotContent, Chunk.lit "</body>"]

/-- A concrete layout set holding `post.html`. -/
def teraEx : List (String × List Chunk) := [("post.html", layoutEx)]

/-- Concrete capabilities where every stage succeeds. -/
def capsEx : Caps :=
  { readFile := fun _ => some "doc"
    toMdast := fun _ => some (Node.root [Node.yaml "good"])
    decode := decodeEx
    toHtml := Except.ok }

/-- The triple `PageTriple::new` computes for `r/x.md` with output root
`public`. -/
def tripleEx : PageTriple :=
  { src := ["r", "x.md"], out := ["public", "x", "index.html"], uri := ["x"] }

/-- The page `Page::new` builds from `capsEx` for `tripleEx`. -/
def pageEx : Page := { title := "Hi", template := "post.html", content := "doc" }

/-- Capabilities whose mdast parse fails. -/
def capsBadParse : Caps := { capsEx with toMdast := fun _ => none }

/-- Capabilities whose file read fails. -/
def capsNoRead : Caps := { capsEx with readFile := fun _ => none }

/-- Capabilities whose markdown-to-html conversion fails with message
`"boom"`. -/
def capsHtmlErr : Caps := { capsEx with toHtml := fun _ => Except.error "boom" }

theorem stripDir_append (dir rest : List String) :
    stripDir (dir ++ rest) dir = some rest := by
  induction dir with
  | nil => simp [stripDir]
  | cons a d ih => simp [stripDir, ih]

theorem stripDir_eq_some_iff {p dir r : List String} :
    stripDir p dir = some r ↔ p = dir ++ r := by
  induction dir generalizing p with
  | nil => simp [stripDir]
  | cons b d ih =>
    cases p with
    | nil => simp [stripDir]
    | cons a p2 =>
      simp only [stripDir, List.cons_append, List.cons.injEq]
      by_cases h : b = a
      · subst h; simp [ih]
      · rw [if_neg h]
        constructor
        · intro hc; exact absurd hc (by simp)
        · intro hc; exact absurd hc.1.symm h

theorem getLast?_append_singleton (l : List String) (a : String) :
    (l ++ [a]).getLast? = some a := by
  simp [List.getLast?_concat]

theorem dropLast_append_singleton (l : List String) (a : String) :
    (l ++ [a]).dropLast = l := by
  simp [List.dropLast_concat]

theorem parentDir_append_singleton (l : List String) (a : String) :
    parentDir (l ++ [a]) = some l := by
  cases l with
  | nil => rfl
  | cons x xs =>
    simp only [List.cons_append, parentDir]
    rw [← List.cons_append, dropLast_append_singleton]

/-- Computation of `PageTriple::new` on a path strictly under the source
root: no unwrap faults, and the address follows the index/non-index rule. -/
theorem PageTriple.new_under (r o rel : List String) (fname : String) :
    PageTriple.new (r ++ (rel ++ [fname])) r o =
      some { src := r ++ (rel ++ [fname]),
             out := o ++ (if fileStem fname = "index" then rel
                          else rel ++ [fileStem fname]) ++ ["index.html"],
             uri := (if fileStem fname = "index" then rel
                     else rel ++ [fileStem fname]) } := by
  have h1 : (r ++ (rel ++ [fname])).getLast? = some fname := by
    rw [← List.append_assoc]
    exact getLast?_append_singleton (r ++ rel) fname
  have h2 : stripDir (r ++ (rel ++ [fname])) r = some (rel ++ [fname]) :=
    stripDir_append r (rel ++ [fname])
  have h3 : parentDir (rel ++ [fname]) = some rel := parentDir_append_singleton rel fname
  simp [PageTriple.new, h1, h2, h3, beq_iff_eq]

theorem lastDotSplit_spec {l : List Char} {pre post : List Char}
    (h : lastDotSplit l = some (pre, post)) : l = pre ++ '.' :: post := by
  induction l generalizing pre post with
  | nil => simp [lastDotSplit] at h
  | cons c rest ih =>
    simp only [lastDotSplit] at h
    cases hr : lastDotSplit rest with
    | some pp =>
      rw [hr] at h
      obtain ⟨p1, p2⟩ := pp
      injection h with h
      injection h with ha hb
      subst hb
      cases ha
      simp [ih hr]
    | none =>
      rw [hr] at h
      by_cases hc : c = '.'
      · rw [if_pos hc] at h
        injection h with h
        injection h with ha hb
        subst hc
        rw [← ha, ← hb]
        rfl
      · rw [if_neg hc] at h
        exact absurd h (by simp)

/-- A name whose Rust `extension()` is `Some("md")` is its stem followed by
`.md`. -/
theorem extOf_md_data {f : String} (h : extOf f = some "md") :
    f.data = (fileStem f).data ++ '.' :: ['m', 'd'] := by
  unfold extOf at h
  unfold fileStem
  cases hs : lastDotSplit f.data with
  | none => rw [hs] at h; exact absurd h (by simp)
  | some pp =>
    obtain ⟨pre, post⟩ := pp
    rw [hs] at h
    dsimp only at h ⊢
    by_cases hp : pre = []
    · rw [if_pos hp] at h; exact absurd h (by simp)
    · rw [if_neg hp] at h
      injection h with h
      have hpost : post = ['m', 'd'] := congrArg String.data h
      rw [if_neg hp]
      rw [lastDotSplit_spec hs, hpost]

/-- Two names with extension `md` and equal stems are equal. -/
theorem md_name_eq {f g : String} (hf : extOf f = some "md")
    (hg : extOf g = some "md") (h : fileStem f = fileStem g) : f = g := by
  have hd : f.data = g.data := by
    rw [extOf_md_data hf, extOf_md_data hg, h]
  cases f; cases g; cases hd; rfl

theorem strAppendAssoc (a b c : String) : a ++ b ++ c = a ++ (b ++ c) := by
  apply String.ext
  simp [String.data_append]

theorem strNilAppend (a : String) : "" ++ a = a := by
  apply String.ext
  simp [String.data_append]

/-- Every chunk of a layout appears literally in the rendered output. -/
theorem renderTemplate_mem (layout : List Chunk) (title content : String) (c : Chunk)
    (hc : c ∈ layout) :
    ∃ a b, renderTemplate layout title content = a ++ chunkText title content c ++ b := by
  induction layout with
  | nil => cases hc
  | cons d rest ih =>
    rcases List.mem_cons.mp hc with h | h
    · subst h
      refine ⟨"", renderTemplate rest title content, ?_⟩
      rw [strNilAppend]
      rfl
    · obtain ⟨a, b, hab⟩ := ih h
      refine ⟨chunkText title content d ++ a, b, ?_⟩
      show chunkText title content d ++ renderTemplate rest title content = _
      rw [hab, ← strAppendAssoc, ← strAppendAssoc]

/-- When a run reaches a document whose processing panics, the loop stops:
the writes are exactly those of the documents before it. -/
theorem mainLoop_abort (caps : Caps) (tera : List (String × List Chunk))
    (src_dir out_dir : List String) (pre : List (List String)) (s : List String)
    (rest : List (List String)) (ws : List (List String × String))
    (hpre : processAll caps tera src_dir out_dir pre = some ws)
    (hs : processSrc caps tera src_dir out_dir s = none) :
    mainLoop caps tera src_dir out_dir (pre ++ s :: rest) = (ws, false) := by
  induction pre generalizing ws with
  | nil =>
    simp [processAll] at hpre
    subst hpre
    simp [mainLoop, hs]
  | cons q qre ih =>
    simp only [processAll] at hpre
    cases hq : processSrc caps tera src_dir out_dir q with
    | none => rw [hq] at hpre; simp at hpre
    | some w =>
      rw [hq] at hpre
      cases hqs : processAll caps tera src_dir out_dir qre with
      | none => rw [hqs] at hpre; simp at hpre
      | some ws2 =>
        rw [hqs] at hpre
        simp at hpre
        subst hpre
        simp [mainLoop, hq, ih ws2 hqs]

theorem mem_mdsOf {p : List String} {path : List String}
    {es : List (String × FsEntry)} :
    p ∈ mdsOf path es ↔
      ∃ n, p = path ++ [n] ∧ (n, FsEntry.file) ∈ es ∧ extOf n = some "md" := by
  constructor
  · intro h
    obtain ⟨⟨n, e⟩, hmem, hf⟩ := List.mem_filterMap.mp h
    cases e with
    | file =>
      dsimp only at hf
      by_cases hx : extOf n = some "md"
      · rw [if_pos hx] at hf
        injection hf with hf
        exact ⟨n, hf.symm, hmem, hx⟩
      · rw [if_neg hx] at hf
        exact absurd hf (by simp)
    | dir es2 => exact absurd hf (by simp)
  · rintro ⟨n, rfl, hmem, hx⟩
    exact List.mem_filterMap.mpr ⟨(n, FsEntry.file), hmem, by simp [hx]⟩

theorem mem_subdirsOf {q : List String × List (String × FsEntry)}
    {path : List String} {es : List (String × FsEntry)} :
    q ∈ subdirsOf path es ↔
      ∃ n es2, q = (path ++ [n], es2) ∧ (n, FsEntry.dir es2) ∈ es := by
  constructor
  · intro h
    obtain ⟨⟨n, e⟩, hmem, hf⟩ := List.mem_filterMap.mp h
    cases e with
    | file => exact absurd hf (by simp)
    | dir es2 =>
      dsimp only at hf
      injection hf with hf
      exact ⟨n, es2, hf.symm, hmem⟩
  · rintro ⟨n, es2, rfl, hmem⟩
    exact List.mem_filterMap.mpr ⟨(n, FsEntry.dir es2), hmem, rfl⟩

/-- One loop iteration preserves the md-files-under characterization. -/
theorem scan_step {p path : List String} {entries : List (String × FsEntry)} :
    (∃ rel, p = path ++ rel ∧ isMdFileUnder entries rel) ↔
      p ∈ mdsOf path entries ∨
        ∃ q ∈ subdirsOf path entries,
          ∃ rel, p = q.1 ++ rel ∧ isMdFileUnder q.2 rel := by
  constructor
  · rintro ⟨rel, rfl, hrel⟩
    match rel, hrel with
    | [n], ⟨hmem, hx⟩ =>
      exact Or.inl (mem_mdsOf.mpr ⟨n, rfl, hmem, hx⟩)
    | n :: n2 :: ns, ⟨es2, hmem, hmd⟩ =>
      refine Or.inr ⟨(path ++ [n], es2), mem_subdirsOf.mpr ⟨n, es2, rfl, hmem⟩,
        n2 :: ns, ?_, hmd⟩
      simp
  · rintro (h | ⟨q, hq, rel, rfl, hrel⟩)
    · obtain ⟨n, rfl, hmem, hx⟩ := mem_mdsOf.mp h
      exact ⟨[n], rfl, hmem, hx⟩
    · obtain ⟨n, es2, rfl, hmem⟩ := mem_subdirsOf.mp hq
      match rel, hrel with
      | r1 :: rs, hrel =>
        exact ⟨n :: r1 :: rs, by simp, es2, hmem, hrel⟩

/-- Invariant of the scanner's stack loop: its members are the output
accumulator plus the md files under any stacked directory. -/
theorem get_all_src_loop_mem (p : List String) :
    ∀ (stack : List (List String × List (String × FsEntry)))
      (out : List (List String)),
    p ∈ get_all_src_loop stack out ↔
      p ∈ out ∨ ∃ q ∈ stack, ∃ rel, p = q.1 ++ rel ∧ isMdFileUnder q.2 rel := by
  intro stack out
  induction stack, out using get_all_src_loop.induct with
  | case1 out => simp [get_all_src_loop]
  | case2 path entries rest out ih =>
    rw [get_all_src_loop, ih]
    simp only [List.mem_append, List.mem_cons]
    constructor
    · rintro ((h | h) | ⟨q, (hq | hq), rel, hrel⟩)
      · exact Or.inl h
      · exact Or.inr ⟨(path, entries), Or.inl rfl, scan_step.mpr (Or.inl h)⟩
      · exact Or.inr ⟨(path, entries), Or.inl rfl,
          scan_step.mpr (Or.inr ⟨q, hq, rel, hrel⟩)⟩
      · exact Or.inr ⟨q, Or.inr hq, rel, hrel⟩
    · rintro (h | ⟨q, (rfl | hq), rel, hrel⟩)
      · exact Or.inl (Or.inl h)
      · rcases scan_step.mp ⟨rel, hrel⟩ with h | ⟨q2, hq2, rel2, hrel2⟩
        · exact Or.inl (Or.inr h)
        · exact Or.inr ⟨q2, Or.inl hq2, rel2, hrel2⟩
      · exact Or.inr ⟨q, Or.inr hq, rel, hrel⟩

theorem isMdFileUnder_nil (rel : List String) : ¬ isMdFileUnder [] rel := by
  match rel with
  | [] => simp [isMdFileUnder]
  | [n] => simp [isMdFileUnder]
  | n :: n2 :: ns => simp [isMdFileUnder]

/-- An empty subdirectory entry changes nothing about which md files lie
under an entry list. -/
theorem isMdFileUnder_cons_empty_dir (n : String) (es : List (String × FsEntry))
    (rel : List String) :
    isMdFileUnder ((n, FsEntry.dir []) :: es) rel ↔ isMdFileUnder es rel := by
  match rel with
  | [] => simp [isMdFileUnder]
  | [m] =>
    simp only [isMdFileUnder, List.mem_cons]
    constructor
    · rintro ⟨(h | h), hx⟩
      · exact absurd (congrArg Prod.snd h) (by simp)
      · exact ⟨h, hx⟩
    · rintro ⟨h, hx⟩
      exact ⟨Or.inr h, hx⟩
  | m :: m2 :: ms =>
    simp only [isMdFileUnder, List.mem_cons]
    constructor
    · rintro ⟨es2, (h | h), hmd⟩
      · have hes2 : es2 = [] := by
          have := congrArg Prod.snd h
          simp at this
          exact this
        subst hes2
        exact absurd hmd (isMdFileUnder_nil _)
      · exact ⟨es2, h, hmd⟩
    · rintro ⟨es2, h, hmd⟩
      exact ⟨es2, Or.inr h, hmd⟩

/-- C1: for every source path strictly under the source root `r`,
`PageTriple::new` resolves it to a triple whose public address is rooted at
`/`, whose output path is the output root followed by the address components
followed by `index.html`, and whose address is the containing directory when
the file stem is exactly `index` and the containing directory extended by
the stem otherwise; concretely, `r/a/b/index.md` resolves to `/a/b`,
`r/a/b/page.md` to `/a/b/page`, and `r/index.md` to `/`. -/
theorem c1_address_resolution :
    (∀ (r o rel : List String) (fname : String),
      ∃ t, PageTriple.new (r ++ (rel ++ [fname])) r o = some t ∧
        t.uri = (if fileStem fname = "index" then rel else rel ++ [fileStem fname]) ∧
        t.out = o ++ t.uri ++ ["index.html"] ∧
        (∃ s, uriString t.uri = "/" ++ s)) ∧
    (PageTriple.new ["r", "a", "b", "index.md"] ["r"] ["public"]).map
      (fun t => uriString t.uri) = some "/a/b" ∧
    (PageTriple.new ["r", "a", "b", "page.md"] ["r"] ["public"]).map
      (fun t => uriString t.uri) = some "/a/b/page" ∧
    (PageTriple.new ["r", "index.md"] ["r"] ["public"]).map
      (fun t => uriString t.uri) = some "/" := by
  refine ⟨?_, by decide, by decide, by decide⟩
  intro r o rel fname
  refine ⟨_, PageTriple.new_under r o rel fname, rfl, ?_, ?_⟩
  · by_cases h : fileStem fname = "index" <;> simp [h]
  · exact ⟨String.intercalate "/" _, rfl⟩

/-- C2: metadata extraction is total and matches its reference definition:
when the first parsed node is a YAML header that decodes to a front matter,
`extractFrontMatter` returns exactly that pair; when the header is missing,
of the wrong node kind, or fails to decode (malformed or lacking a field),
it returns the fixed defaults `title = "NO TITLE"`,
`template = "base-1.html"`; and a successful read and parse always yields a
page carrying the extracted metadata, so header decoding never aborts. -/
theorem c2_metadata_extraction :
    (∀ (decode : String → Option FrontMatter) (v : String) (fm : FrontMatter)
        (rest : List Node),
      decode v = some fm → extractFrontMatter decode (Node.yaml v :: rest) = fm) ∧
    (∀ decode, extractFrontMatter decode [] = defaultFrontMatter) ∧
    (∀ decode children rest,
      extractFrontMatter decode (Node.root children :: rest) = defaultFrontMatter) ∧
    (∀ decode rest, extractFrontMatter decode (Node.other :: rest) = defaultFrontMatter) ∧
    (∀ decode v rest, decode v = none →
      extractFrontMatter decode (Node.yaml v :: rest) = defaultFrontMatter) ∧
    defaultFrontMatter = { title := "NO TITLE", template := "base-1.html" } ∧
    (∀ (caps : Caps) (triple : PageTriple) (content : String) (children : List Node),
      caps.readFile triple.src = some content →
      caps.toMdast content = some (Node.root children) →
      Page.new caps triple =
        some { title := (extractFrontMatter caps.decode children).title,
               template := (extractFrontMatter caps.decode children).template,
               content := content }) := by
  refine ⟨?_, ?_, ?_, ?_, ?_, rfl, ?_⟩
  · intro decode v fm rest h
    simp [extractFrontMatter, h]
  · intro decode
    simp [extractFrontMatter]
  · intro decode children rest
    simp [extractFrontMatter]
  · intro decode rest
    simp [extractFrontMatter]
  · intro decode v rest h
    simp [extractFrontMatter, h]
  · intro caps triple content children h1 h2
    simp [Page.new, h1, h2]

theorem c2_witness :
    extractFrontMatter decodeEx [Node.yaml "good"] =
      { title := "Hi", template := "post.html" } ∧
    extractFrontMatter decodeEx [] = defaultFrontMatter ∧
    extractFrontMatter decodeEx [Node.other] = defaultFrontMatter ∧
    extractFrontMatter decodeEx [Node.yaml "bad"] = defaultFrontMatter ∧
    Page.new capsEx tripleEx = some pageEx :=
  ⟨c2_metadata_extraction.1 decodeEx "good" _ [] rfl,
   c2_metadata_extraction.2.1 decodeEx,
   c2_metadata_extraction.2.2.2.1 decodeEx [],
   c2_metadata_extraction.2.2.2.2.1 decodeEx "bad" [] rfl,
   c2_metadata_extraction.2.2.2.2.2.2 capsEx tripleEx "doc" [Node.yaml "good"] rfl rfl⟩

/-- C3: for a rendered document whose layout holds the `title` and `content`
slots, `render` fills them with the metadata title and the converted-markup
output with no escaping: the output is the verbatim chunk concatenation, and
it contains the title text and the converted body literally. -/
theorem c3_unescaped_slots (tera : List (String × List Chunk)) (caps : Caps)
    (page : Page) (triple : PageTriple) (layout : List Chunk)
    (hlay : tera.lookup page.template = some layout)
    (ht : Chunk.slotTitle ∈ layout) (hc : Chunk.slotContent ∈ layout) :
    render tera caps page triple =
      some (triple.out, renderTemplate layout page.title (contentHtml caps page)) ∧
    (∃ a b, renderTemplate layout page.title (contentHtml caps page) =
      a ++ page.title ++ b) ∧
    (∃ a b, renderTemplate layout page.title (contentHtml caps page) =
      a ++ contentHtml caps page ++ b) := by
  refine ⟨by simp [render, hlay], ?_, ?_⟩
  · exact renderTemplate_mem layout page.title (contentHtml caps page) Chunk.slotTitle ht
  · exact renderTemplate_mem layout page.title (contentHtml caps page) Chunk.slotContent hc

theorem c3_witness :
    render teraEx capsEx pageEx tripleEx =
      some (tripleEx.out, renderTemplate layoutEx pageEx.title (contentHtml capsEx pageEx)) ∧
    (∃ a b, renderTemplate layoutEx pageEx.title (contentHtml capsEx pageEx) =
      a ++ pageEx.title ++ b) ∧
    (∃ a b, renderTemplate layoutEx pageEx.title (contentHtml capsEx pageEx) =
      a ++ contentHtml capsEx pageEx ++ b) :=
  c3_unescaped_slots teraEx capsEx pageEx tripleEx layoutEx rfl (by decide) (by decide)

/-- C4: when a run reaches a document whose metadata names a layout absent
from the layout set, rendering fails (the modelled `LayoutNotFound` /
`unwrap` panic), the entire run terminates with only the earlier documents'
writes performed, and that document's output file is not written. -/
theorem c4_layout_not_found (caps : Caps) (tera : List (String × List Chunk))
    (src_dir out_dir : List String) (pre : List (List String)) (s : List String)
    (rest : List (List String)) (triple : PageTriple) (page : Page)
    (ws : List (List String × String))
    (hpre : processAll caps tera src_dir out_dir pre = some ws)
    (htriple : PageTriple.new s src_dir out_dir = some triple)
    (hpage : Page.new caps triple = some page)
    (hlay : tera.lookup page.template = none) :
    render tera caps page triple = none ∧
    mainLoop caps tera src_dir out_dir (pre ++ s :: rest) = (ws, false) := by
  have hrender : render tera caps page triple = none := by simp [render, hlay]
  refine ⟨hrender, mainLoop_abort caps tera src_dir out_dir pre s rest ws hpre ?_⟩
  simp [processSrc, htriple, hpage, hrender]

theorem c4_witness :
    render [] capsEx pageEx tripleEx = none ∧
    mainLoop capsEx [] ["r"] ["public"] [["r", "x.md"]] = ([], false) :=
  c4_layout_not_found capsEx [] ["r"] ["public"] [] ["r", "x.md"] [] tripleEx pageEx []
    rfl rfl rfl rfl

/-- C5 counterexample: the distinct source files `r/a/b.md` and
`r/a/b/index.md`, both under the root `r`, resolve to the same public
address `/a/b`, so address resolution is not injective as claimed. -/
theorem c5_counterexample :
    (["r", "a", "b.md"] : List String) ≠ ["r", "a", "b", "index.md"] ∧
    (PageTriple.new ["r", "a", "b.md"] ["r"] ["public"]).map PageTriple.uri =
      some ["a", "b"] ∧
    (PageTriple.new ["r", "a", "b", "index.md"] ["r"] ["public"]).map PageTriple.uri =
      some ["a", "b"] :=
  ⟨by decide, by decide, by decide⟩

/-- C5 (amended): address resolution is not injective on arbitrary source
files (`X.md` collides with `X/index.md`); it is injective on source files
with the `.md` extension lying at the same directory depth under the same
source root: two such distinct files always resolve to distinct public
addresses. -/
theorem c5_amended (r o rel₁ rel₂ : List String) (f₁ f₂ : String)
    (hmd₁ : extOf f₁ = some "md") (hmd₂ : extOf f₂ = some "md")
    (hlen : rel₁.length = rel₂.length)
    (hne : rel₁ ++ [f₁] ≠ rel₂ ++ [f₂]) :
    (PageTriple.new (r ++ (rel₁ ++ [f₁])) r o).map PageTriple.uri ≠
      (PageTriple.new (r ++ (rel₂ ++ [f₂])) r o).map PageTriple.uri := by
  rw [PageTriple.new_under, PageTriple.new_under]
  simp only [Option.map_some']
  intro h
  injection h with h
  by_cases h₁ : fileStem f₁ = "index" <;> by_cases h₂ : fileStem f₂ = "index"
  · rw [if_pos h₁, if_pos h₂] at h
    have hf : f₁ = f₂ := md_name_eq hmd₁ hmd₂ (h₁.trans h₂.symm)
    exact hne (by rw [h, hf])
  · rw [if_pos h₁, if_neg h₂] at h
    have := congrArg List.length h
    simp at this
    omega
  · rw [if_neg h₁, if_pos h₂] at h
    have := congrArg List.length h
    simp at this
    omega
  · rw [if_neg h₁, if_neg h₂] at h
    obtain ⟨hr, hs⟩ := List.append_inj h hlen
    injection hs with hs
    have hf : f₁ = f₂ := md_name_eq hmd₁ hmd₂ hs
    exact hne (by rw [hr, hf])

theorem c5_amended_witness :
    (PageTriple.new (["r"] ++ (["a"] ++ ["x.md"])) ["r"] ["public"]).map PageTriple.uri ≠
      (PageTriple.new (["r"] ++ (["a"] ++ ["y.md"])) ["r"] ["public"]).map PageTriple.uri :=
  c5_amended ["r"] ["public"] ["a"] ["a"] "x.md" "y.md" (by decide) (by decide) rfl
    (by decide)

/-- C6: when a run reaches a document whose content is unparseable at the
markup level (the mdast parse fails), `Page::new` panics: the run aborts
with only the earlier documents' writes performed and no output for that
document. -/
theorem c6_unparseable_fatal (caps : Caps) (tera : List (String × List Chunk))
    (src_dir out_dir : List String) (pre : List (List String)) (s : List String)
    (rest : List (List String)) (triple : PageTriple) (content : String)
    (ws : List (List String × String))
    (hpre : processAll caps tera src_dir out_dir pre = some ws)
    (htriple : PageTriple.new s src_dir out_dir = some triple)
    (hread : caps.readFile triple.src = some content)
    (hparse : caps.toMdast content = none) :
    Page.new caps triple = none ∧
    mainLoop caps tera src_dir out_dir (pre ++ s :: rest) = (ws, false) := by
  have hpage : Page.new caps triple = none := by simp [Page.new, hread, hparse]
  refine ⟨hpage, mainLoop_abort caps tera src_dir out_dir pre s rest ws hpre ?_⟩
  simp [processSrc, htriple, hpage]

theorem c6_witness :
    Page.new capsBadParse tripleEx = none ∧
    mainLoop capsBadParse teraEx ["r"] ["public"] [["r", "x.md"]] = ([], false) :=
  c6_unparseable_fatal capsBadParse teraEx ["r"] ["public"] [] ["r", "x.md"] [] tripleEx
    "doc" [] rfl rfl rfl rfl

/-- C7: for every source path strictly under the source root the resolver's
internal failure branches (stem extraction, root stripping, parent
extraction) are unreachable and it returns a triple; for a source path not
under the source root it faults (the modelled `unwrap` panic). -/
theorem c7_resolver_totality :
    (∀ (r o rel : List String) (fname : String),
      (PageTriple.new (r ++ (rel ++ [fname])) r o).isSome = true) ∧
    (∀ (p r o : List String), (¬ ∃ rest, p = r ++ rest) →
      PageTriple.new p r o = none) := by
  constructor
  · intro r o rel fname
    rw [PageTriple.new_under]
    rfl
  · intro p r o h
    have hstrip : stripDir p r = none := by
      cases hs : stripDir p r with
      | none => rfl
      | some rest => exact absurd ⟨rest, stripDir_eq_some_iff.mp hs⟩ h
    cases hl : p.getLast? with
    | none => simp [PageTriple.new, hl]
    | some fname => simp [PageTriple.new, hl, hstrip]

theorem c7_witness :
    (PageTriple.new (["r"] ++ (["a"] ++ ["x.md"])) ["r"] ["public"]).isSome = true ∧
    PageTriple.new ["z", "x.md"] ["r"] ["public"] = none := by
  constructor
  · exact c7_resolver_totality.1 ["r"] ["public"] ["a"] "x.md"
  · refine c7_resolver_totality.2 ["z", "x.md"] ["r"] ["public"] ?_
    rintro ⟨rest, h⟩
    simp at h

/-- C8: the scanner returns exactly the file paths under the root directory,
at unbounded recursive depth, whose extension is `md`; and an empty
subdirectory is visited but contributes zero documents (adding one to a
directory changes nothing about the scan's members). -/
theorem c8_scanner_exact :
    (∀ (root : List String) (es : List (String × FsEntry)) (p : List String),
      p ∈ get_all_src root es ↔ ∃ rel, p = root ++ rel ∧ isMdFileUnder es rel) ∧
    (∀ (root : List String) (n : String) (es : List (String × FsEntry))
        (p : List String),
      p ∈ get_all_src root ((n, FsEntry.dir []) :: es) ↔ p ∈ get_all_src root es) := by
  have hmain : ∀ (root : List String) (es : List (String × FsEntry)) (p : List String),
      p ∈ get_all_src root es ↔ ∃ rel, p = root ++ rel ∧ isMdFileUnder es rel := by
    intro root es p
    rw [get_all_src, get_all_src_loop_mem]
    simp
  refine ⟨hmain, ?_⟩
  intro root n es p
  rw [hmain, hmain]
  constructor
  · rintro ⟨rel, rfl, hrel⟩
    exact ⟨rel, rfl, (isMdFileUnder_cons_empty_dir n es rel).mp hrel⟩
  · rintro ⟨rel, rfl, hrel⟩
    exact ⟨rel, rfl, (isMdFileUnder_cons_empty_dir n es rel).mpr hrel⟩

/-- C9: when the markup-to-html conversion returns an error, the run does
not abort: the error message string itself becomes the converted content,
is substituted into the layout, the `(path, bytes)` write for the document
is performed, and processing continues with the remaining documents. -/
theorem c9_conversion_error_written (caps : Caps) (tera : List (String × List Chunk))
    (src_dir out_dir : List String) (s : List String) (rest : List (List String))
    (triple : PageTriple) (page : Page) (layout : List Chunk) (e : String)
    (htriple : PageTriple.new s src_dir out_dir = some triple)
    (hpage : Page.new caps triple = some page)
    (herr : caps.toHtml page.content = Except.error e)
    (hlay : tera.lookup page.template = some layout) :
    render tera caps page triple =
      some (triple.out, renderTemplate layout page.title e) ∧
    mainLoop caps tera src_dir out_dir (s :: rest) =
      ((triple.out, renderTemplate layout page.title e) ::
         (mainLoop caps tera src_dir out_dir rest).1,
       (mainLoop caps tera src_dir out_dir rest).2) := by
  have hch : contentHtml caps page = e := by simp [contentHtml, herr]
  have hrender : render tera caps page triple =
      some (triple.out, renderTemplate layout page.title e) := by
    simp [render, hlay, hch]
  refine ⟨hrender, ?_⟩
  simp [mainLoop, processSrc, htriple, hpage, hrender]

theorem c9_witness :
    render teraEx capsHtmlErr pageEx tripleEx =
      some (tripleEx.out, renderTemplate layoutEx pageEx.title "boom") ∧
    mainLoop capsHtmlErr teraEx ["r"] ["public"] [["r", "x.md"]] =
      ((tripleEx.out, renderTemplate layoutEx pageEx.title "boom") ::
         (mainLoop capsHtmlErr teraEx ["r"] ["public"] []).1,
       (mainLoop capsHtmlErr teraEx ["r"] ["public"] []).2) :=
  c9_conversion_error_written capsHtmlErr teraEx ["r"] ["public"] ["r", "x.md"] []
    tripleEx pageEx layoutEx "boom" rfl rfl rfl rfl

/-- C10: when a run reaches a document whose source file cannot be read as
a string, `Page::new` panics before any defaulting applies: the run aborts
with only the earlier documents' writes performed and no output for that
document. -/
theorem c10_read_failure_fatal (caps : Caps) (tera : List (String × List Chunk))
    (src_dir out_dir : List String) (pre : List (List String)) (s : List String)
    (rest : List (List String)) (triple : PageTriple)
    (ws : List (List String × String))
    (hpre : processAll caps tera src_dir out_dir pre = some ws)
    (htriple : PageTriple.new s src_dir out_dir = some triple)
    (hread : caps.readFile triple.src = none) :
    Page.new caps triple = none ∧
    mainLoop caps tera src_dir out_dir (pre ++ s :: rest) = (ws, false) := by
  have hpage : Page.new caps triple = none := by simp [Page.new, hread]
  refine ⟨hpage, mainLoop_abort caps tera src_dir out_dir pre s rest ws hpre ?_⟩
  simp [processSrc, htriple, hpage]

theorem c10_witness :
    Page.new capsNoRead tripleEx = none ∧
    mainLoop capsNoRead teraEx ["r"] ["public"] [["r", "x.md"]] = ([], false) :=
  c10_read_failure_fatal capsNoRead teraEx ["r"] ["public"] [] ["r", "x.md"] [] tripleEx
    [] rfl rfl rfl
